import Mathlib

/-!
Verification of the raster-to-overlay pipeline of the UHI_LST-MODEL frontend
(`TiffLayer.tsx`, `CompositeTiffLayer.tsx`, `HeatmapLayer.tsx`).

JavaScript numbers are modelled by `JVal`: a finite rational, NaN, or one of
the two infinities.  The arithmetic helpers (`jsub`, `jdiv`, `jmul`, `jlt`,
`jmaxOp`, `jminOp`) follow IEEE-754 / ECMAScript semantics on those values.
`Math.pow(x, 0.8)` (the gamma correction) is irrational on most rationals, so
the stretch is parameterised over an abstract `pw : ℚ → ℚ` standing for
`fun x => x ** 0.8` on non-negative finite arguments; every theorem comparing
code and specification uses the same `pw` on both sides, and the NaN / sign
handling of `Math.pow` itself is modelled explicitly in `jpowG`.
-/

/-- Model of a JavaScript (IEEE-754 double / Float32 sample) value. -/
inductive JVal where
  | fin : ℚ → JVal
  | nan : JVal
  | inf : JVal
  | ninf : JVal
deriving DecidableEq, Repr

/-- JavaScript `isNaN`. -/
def jIsNaN : JVal → Bool
  | JVal.nan => true
  | _ => false

/-- JavaScript `isFinite`. -/
def jIsFinite : JVal → Bool
  | JVal.fin _ => true
  | _ => false

/-- JavaScript `<` on numbers (false whenever either side is NaN). -/
def jlt : JVal → JVal → Bool
  | JVal.nan, _ => false
  | _, JVal.nan => false
  | JVal.ninf, JVal.ninf => false
  | JVal.ninf, _ => true
  | _, JVal.ninf => false
  | JVal.inf, _ => false
  | JVal.fin _, JVal.inf => true
  | JVal.fin a, JVal.fin b => decide (a < b)

/-- JavaScript subtraction. -/
def jsub : JVal → JVal → JVal
  | JVal.nan, _ => JVal.nan
  | _, JVal.nan => JVal.nan
  | JVal.fin a, JVal.fin b => JVal.fin (a - b)
  | JVal.inf, JVal.inf => JVal.nan
  | JVal.inf, _ => JVal.inf
  | JVal.ninf, JVal.ninf => JVal.nan
  | JVal.ninf, _ => JVal.ninf
  | JVal.fin _, JVal.inf => JVal.ninf
  | JVal.fin _, JVal.ninf => JVal.inf

/-- JavaScript division (division by the +0 literal produces a signed
infinity, and 0/0, ∞/∞ produce NaN). -/
def jdiv : JVal → JVal → JVal
  | JVal.nan, _ => JVal.nan
  | _, JVal.nan => JVal.nan
  | JVal.fin a, JVal.fin b =>
      if b = 0 then (if a = 0 then JVal.nan else if 0 < a then JVal.inf else JVal.ninf)
      else JVal.fin (a / b)
  | JVal.fin _, JVal.inf => JVal.fin 0
  | JVal.fin _, JVal.ninf => JVal.fin 0
  | JVal.inf, JVal.fin b => if 0 ≤ b then JVal.inf else JVal.ninf
  | JVal.ninf, JVal.fin b => if 0 ≤ b then JVal.ninf else JVal.inf
  | _, _ => JVal.nan

/-- JavaScript multiplication. -/
def jmul : JVal → JVal → JVal
  | JVal.nan, _ => JVal.nan
  | _, JVal.nan => JVal.nan
  | JVal.fin a, JVal.fin b => JVal.fin (a * b)
  | JVal.inf, JVal.fin b => if b = 0 then JVal.nan else if 0 < b then JVal.inf else JVal.ninf
  | JVal.fin a, JVal.inf => if a = 0 then JVal.nan else if 0 < a then JVal.inf else JVal.ninf
  | JVal.ninf, JVal.fin b => if b = 0 then JVal.nan else if 0 < b then JVal.ninf else JVal.inf
  | JVal.fin a, JVal.ninf => if a = 0 then JVal.nan else if 0 < a then JVal.ninf else JVal.inf
  | JVal.inf, JVal.inf => JVal.inf
  | JVal.inf, JVal.ninf => JVal.ninf
  | JVal.ninf, JVal.inf => JVal.ninf
  | JVal.ninf, JVal.ninf => JVal.inf

/-- JavaScript `Math.max` of two arguments (NaN-propagating). -/
def jmaxOp (a b : JVal) : JVal :=
  if jIsNaN a || jIsNaN b then JVal.nan else if jlt a b then b else a

/-- JavaScript `Math.min` of two arguments (NaN-propagating). -/
def jminOp (a b : JVal) : JVal :=
  if jIsNaN a || jIsNaN b then JVal.nan else if jlt b a then b else a

/-- JavaScript `Math.pow (base, 0.8)` with the finite non-negative case
delegated to the abstract function `pw`.  A negative finite base with the
non-integer exponent 0.8 yields NaN; infinite bases yield +∞. -/
def jpowG (pw : ℚ → ℚ) : JVal → JVal
  | JVal.nan => JVal.nan
  | JVal.inf => JVal.inf
  | JVal.ninf => JVal.inf
  | JVal.fin q => if q < 0 then JVal.nan else JVal.fin (pw q)

/-- Round to the nearest integer, ties to even (IEEE / `Uint8ClampedArray`). -/
def roundTiesEven (q : ℚ) : ℤ :=
  if q - ⌊q⌋ < 1 / 2 then ⌊q⌋
  else if 1 / 2 < q - ⌊q⌋ then ⌊q⌋ + 1
  else if ⌊q⌋ % 2 = 0 then ⌊q⌋ else ⌊q⌋ + 1

/-- Storing a JavaScript number into a `Uint8ClampedArray` slot:
NaN becomes 0, the value is clamped to [0, 255] and rounded ties-to-even. -/
def toClamped : JVal → ℕ
  | JVal.nan => 0
  | JVal.ninf => 0
  | JVal.inf => 255
  | JVal.fin q => if q ≤ 0 then 0 else if 255 ≤ q then 255 else (roundTiesEven q).toNat

/-- Validity test of the single-band statistics loop in `TiffLayer.processTiff`:
`!isNaN(v) && isFinite(v) && v !== -9999 && v !== 0`. -/
def validTiff (v : JVal) : Bool :=
  !jIsNaN v && jIsFinite v && v != JVal.fin (-9999) && v != JVal.fin 0

/-- Validity test of `CompositeTiffLayer.getStats`:
`v !== -9999 && v !== 0 && !isNaN(v)` (note: it does NOT test `isFinite`). -/
def validComp (v : JVal) : Bool :=
  v != JVal.fin (-9999) && v != JVal.fin 0 && !jIsNaN v

/-- One iteration of the min/max/count loop of `TiffLayer.processTiff`
(lines 85-96): `if (v < min) min = v; if (v > max) max = v; validCount++`. -/
def tiffStatsStep (acc : JVal × JVal × ℕ) (v : JVal) : JVal × JVal × ℕ :=
  if validTiff v then
    (if jlt v acc.1 then v else acc.1,
     if jlt acc.2.1 v then v else acc.2.1,
     acc.2.2 + 1)
  else acc

/-- The full-scan statistics of `TiffLayer.processTiff`: min starts at
`Infinity`, max at `-Infinity`, validCount at 0. -/
def tiffStats (data : List JVal) : JVal × JVal × ℕ :=
  data.foldl tiffStatsStep (JVal.inf, JVal.ninf, 0)

/-- The terminal check of `TiffLayer.processTiff` (lines 98-100):
`if (validCount === 0 || min === Infinity || max === -Infinity) throw`. -/
def tiffDomain (data : List JVal) : Except String (JVal × JVal) :=
  let s := tiffStats data
  if s.2.2 = 0 ∨ s.1 = JVal.inf ∨ s.2.1 = JVal.ninf then
    Except.error "No valid data values found"
  else Except.ok (s.1, s.2.1)

/-- One iteration of the min/max loop of `CompositeTiffLayer.getStats`. -/
def getStatsStep (acc : JVal × JVal) (v : JVal) : JVal × JVal :=
  if validComp v then
    (if jlt v acc.1 then v else acc.1, if jlt acc.2 v then v else acc.2)
  else acc

/-- The elements visited by `for (i = 0; i < len; i += step)`. -/
def sampledAt (data : List JVal) (step : ℕ) : List JVal :=
  (List.range ((data.length + step - 1) / step)).map fun k => data.getD (k * step) JVal.nan

/-- `CompositeTiffLayer.getStats` (lines 91-104): strided sampling with
`step = Math.max(1, Math.floor(data.length / 5000))`, min from `Infinity`,
max from `-Infinity`. -/
def getStats (data : List JVal) : JVal × JVal :=
  let step := max 1 (data.length / 5000)
  (sampledAt data step).foldl getStatsStep (JVal.inf, JVal.ninf)

/-- The `stretch` closure of `CompositeTiffLayer.processComposite` (lines
122-131): `norm = (val - min) / (max - min);
return Math.min(255, Math.pow(Math.max(0, norm), 0.8) * 255)`. -/
def stretch (pw : ℚ → ℚ) (val mn mx : JVal) : JVal :=
  let norm := jdiv (jsub val mn) (jsub mx mn)
  jminOp (JVal.fin 255) (jmul (jpowG pw (jmaxOp (JVal.fin 0) norm)) (JVal.fin 255))

/-- Specification-side stretch formula for finite inputs:
`clamp(0,255, (((v-min)/(max-min))^gamma) * 255)` with the same abstract
gamma power `pw`. -/
def specStretch (pw : ℚ → ℚ) (v mn mx : ℚ) : ℚ :=
  max 0 (min 255 (pw ((v - mn) / (mx - mn)) * 255))

/-- An RGBA pixel of the output image. -/
structure Rgba where
  r : ℕ
  g : ℕ
  b : ℕ
  a : ℕ
deriving DecidableEq, Repr

/-- One pixel of the combine loop of `CompositeTiffLayer.processComposite`
(lines 111-133): a red-band sample equal to -9999, 0 or NaN makes the pixel
transparent (the colour bytes stay at the zero-initialised value of
`createImageData`); otherwise the three channels are stretched against their
own band statistics and alpha is 255. -/
def compositePixel (pw : ℚ → ℚ) (rStats gStats bStats : JVal × JVal)
    (rv gv bv : JVal) : Rgba :=
  if rv = JVal.fin (-9999) ∨ rv = JVal.fin 0 ∨ jIsNaN rv then ⟨0, 0, 0, 0⟩
  else
    ⟨toClamped (stretch pw rv rStats.1 rStats.2),
     toClamped (stretch pw gv gStats.1 gStats.2),
     toClamped (stretch pw bv bStats.1 bStats.2),
     255⟩

/-- The whole combine loop of `processComposite`: iterates over the indices of
the red array; an out-of-range access into the green/blue arrays is JavaScript
`undefined`, whose arithmetic behaves as NaN. -/
def processCompositePixels (pw : ℚ → ℚ) (rArr gArr bArr : List JVal) : List Rgba :=
  (List.range rArr.length).map fun i =>
    compositePixel pw (getStats rArr) (getStats gArr) (getStats bArr)
      (rArr.getD i JVal.nan) (gArr.getD i JVal.nan) (bArr.getD i JVal.nan)

/-- The alpha-masking loop of `TiffLayer.processTiff` (lines 133-144): the
alpha byte of pixel `i` is forced to 0 when `data[i] === -9999 || data[i] === 0
|| !isFinite(data[i])`, and is otherwise left at its previous value. -/
def tiffMask (data : List JVal) (alphas : List ℕ) : List ℕ :=
  (List.range data.length).map fun i =>
    let v := data.getD i JVal.nan
    if v = JVal.fin (-9999) ∨ v = JVal.fin 0 ∨ jIsFinite v = false then 0
    else alphas.getD i 0

/-- Resampling dimensions (`TiffLayer.processTiff` lines 49-59,
`CompositeTiffLayer.processComposite` lines 56-64):
`if (w > maxDim || h > maxDim) { scale = Math.max(w/maxDim, h/maxDim);
tw = Math.floor(w/scale); th = Math.floor(h/scale); }`. -/
def resampleDims (w h m : ℕ) : ℕ × ℕ :=
  if w > m ∨ h > m then
    ((⌊(w : ℚ) / (max ((w : ℚ) / (m : ℚ)) ((h : ℚ) / (m : ℚ)))⌋).toNat,
     (⌊(h : ℚ) / (max ((w : ℚ) / (m : ℚ)) ((h : ℚ) / (m : ℚ)))⌋).toNat)
  else (w, h)

/-- Corner computation shared by both layers: transform the two bounding-box
corners through `proj4` (modelled by the abstract corner transform `T`,
returning `(lon, lat)`) when the source projection is not EPSG:4326 and
`|bbox[0]| > 180`, swapping into `(lat, lon)` order; otherwise read the
corners directly. -/
def projCorners (T : ℚ × ℚ → ℚ × ℚ) (sourceProj : String) (b0 b1 b2 b3 : ℚ) :
    (ℚ × ℚ) × (ℚ × ℚ) :=
  if sourceProj ≠ "EPSG:4326" ∧ 180 < |b0| then
    (((T (b0, b1)).2, (T (b0, b1)).1), ((T (b2, b3)).2, (T (b2, b3)).1))
  else ((b1, b0), (b3, b2))

/-- Bounds computation of `TiffLayer.processTiff` (lines 168-200): after the
corner computation, ONLY the south-west corner is validated
(`Math.abs(southWest[0]) > 90 || Math.abs(southWest[1]) > 180`). -/
def tiffBounds (T : ℚ × ℚ → ℚ × ℚ) (sourceProj : String) (b0 b1 b2 b3 : ℚ) :
    Except String ((ℚ × ℚ) × (ℚ × ℚ)) :=
  let c := projCorners T sourceProj b0 b1 b2 b3
  if 90 < |c.1.1| ∨ 180 < |c.1.2| then
    Except.error "Invalid coordinates after transformation"
  else Except.ok c

/-- Bounds computation of `CompositeTiffLayer.processComposite` (lines
146-158): the corner computation with no validation at all. -/
def compositeBounds (T : ℚ × ℚ → ℚ × ℚ) (sourceProj : String) (b0 b1 b2 b3 : ℚ) :
    (ℚ × ℚ) × (ℚ × ℚ) :=
  projCorners T sourceProj b0 b1 b2 b3

/-- A raw heatmap input point of `HeatmapLayer`. -/
structure HeatmapPoint where
  lat : ℚ
  lon : ℚ
  temp : ℚ
deriving DecidableEq, Repr

/-- JavaScript `Math.min(...list)` for a non-empty list (the empty case is
unreachable behind the `points.length === 0` early return). -/
def minList : List ℚ → ℚ
  | [] => 0
  | t :: ts => ts.foldl min t

/-- JavaScript `Math.max(...list)` for a non-empty list. -/
def maxList : List ℚ → ℚ
  | [] => 0
  | t :: ts => ts.foldl max t

/-- The normalisation of `HeatmapLayer` (lines 79-95): with an optional
min/max override, `intensity = tempRange > 0 ? (t - actualMin) / tempRange
: 0.5`, producing `[lat, lon, intensity]` triples. -/
def heatData (points : List HeatmapPoint) (minTemp maxTemp : Option ℚ) :
    List (ℚ × ℚ × ℚ) :=
  if points.isEmpty then [] else
  let temps := points.map HeatmapPoint.temp
  let actualMin := minTemp.getD (minList temps)
  let actualMax := maxTemp.getD (maxList temps)
  let tempRange := actualMax - actualMin
  points.map fun p =>
    (p.lat, p.lon, if 0 < tempRange then (p.temp - actualMin) / tempRange else 1 / 2)

/-- The finite values of a sample array passing a validity test: the domain
over which the specification says the statistics are computed. -/
def validQ (valid : JVal → Bool) (data : List JVal) : List ℚ :=
  data.filterMap fun v =>
    match v with
    | JVal.fin q => if valid (JVal.fin q) then some q else none
    | _ => none

/-! Evaluation lemmas for the JavaScript value model. -/

@[simp] theorem jlt_fin_fin (a b : ℚ) : jlt (JVal.fin a) (JVal.fin b) = decide (a < b) := rfl

@[simp] theorem jlt_fin_inf (a : ℚ) : jlt (JVal.fin a) JVal.inf = true := rfl

@[simp] theorem jlt_inf_fin (a : ℚ) : jlt JVal.inf (JVal.fin a) = false := rfl

@[simp] theorem jlt_ninf_fin (a : ℚ) : jlt JVal.ninf (JVal.fin a) = true := rfl

@[simp] theorem jlt_fin_ninf (a : ℚ) : jlt (JVal.fin a) JVal.ninf = false := rfl

@[simp] theorem jlt_ninf_inf : jlt JVal.ninf JVal.inf = true := rfl

@[simp] theorem jlt_inf_ninf : jlt JVal.inf JVal.ninf = false := rfl

@[simp] theorem inf_eq_fin (q : ℚ) : (JVal.inf = JVal.fin q) = False :=
  eq_false fun h => JVal.noConfusion h

@[simp] theorem ninf_eq_fin (q : ℚ) : (JVal.ninf = JVal.fin q) = False :=
  eq_false fun h => JVal.noConfusion h

@[simp] theorem nan_eq_fin (q : ℚ) : (JVal.nan = JVal.fin q) = False :=
  eq_false fun h => JVal.noConfusion h

@[simp] theorem fin_eq_inf (q : ℚ) : (JVal.fin q = JVal.inf) = False :=
  eq_false fun h => JVal.noConfusion h

@[simp] theorem fin_eq_ninf (q : ℚ) : (JVal.fin q = JVal.ninf) = False :=
  eq_false fun h => JVal.noConfusion h

@[simp] theorem fin_eq_nan (q : ℚ) : (JVal.fin q = JVal.nan) = False :=
  eq_false fun h => JVal.noConfusion h

@[simp] theorem validComp_inf : validComp JVal.inf = true := rfl

@[simp] theorem validComp_ninf : validComp JVal.ninf = true := rfl

@[simp] theorem validComp_nan : validComp JVal.nan = false := rfl

@[simp] theorem validTiff_inf : validTiff JVal.inf = false := rfl

@[simp] theorem validTiff_ninf : validTiff JVal.ninf = false := rfl

@[simp] theorem validTiff_nan : validTiff JVal.nan = false := rfl

@[simp] theorem validTiff_fin (q : ℚ) :
    validTiff (JVal.fin q) = if q = -9999 ∨ q = 0 then false else true := by
  by_cases h1 : q = -9999 <;> by_cases h2 : q = 0 <;>
    simp [validTiff, jIsNaN, jIsFinite, h1, h2]

@[simp] theorem validComp_fin (q : ℚ) :
    validComp (JVal.fin q) = if q = -9999 ∨ q = 0 then false else true := by
  by_cases h1 : q = -9999 <;> by_cases h2 : q = 0 <;>
    simp [validComp, jIsNaN, h1, h2]

/-- Rational-floor arithmetic of the scaling branch, reduced to natural
division: `⌊x / max (w/m) (h/m)⌋ = x * m / max w h`. -/
theorem floorScale_div (x w h m : ℕ) :
    (⌊(x : ℚ) / (max ((w : ℚ) / (m : ℚ)) ((h : ℚ) / (m : ℚ)))⌋).toNat = x * m / max w h := by
  have hmq : (0 : ℚ) ≤ (m : ℚ) := by positivity
  rw [max_div_div_right hmq, ← Nat.cast_max, div_div_eq_mul_div, Int.floor_toNat,
    ← Nat.cast_mul, Nat.floor_div_nat, Nat.floor_natCast]

/-- The pair of floors used by the scaling branch. -/
theorem floorScale_eq (w h m : ℕ) :
    (⌊(w : ℚ) / (max ((w : ℚ) / (m : ℚ)) ((h : ℚ) / (m : ℚ)))⌋).toNat = w * m / max w h ∧
    (⌊(h : ℚ) / (max ((w : ℚ) / (m : ℚ)) ((h : ℚ) / (m : ℚ)))⌋).toNat = h * m / max w h :=
  ⟨floorScale_div w w h m, floorScale_div h w h m⟩

/-- The resampled dimensions, rewritten from rational floors into natural
division: `⌊w / max (w/m) (h/m)⌋ = w * m / max w h`. -/
theorem resampleDims_eq (w h m : ℕ) :
    resampleDims w h m =
      if w ≤ m ∧ h ≤ m then (w, h) else (w * m / max w h, h * m / max w h) := by
  rcases le_or_lt w m with hw | hw
  · rcases le_or_lt h m with hh | hh
    · rw [resampleDims, if_neg (by push_neg; exact ⟨hw, hh⟩), if_pos ⟨hw, hh⟩]
    · rw [resampleDims, if_pos (Or.inr hh), if_neg (by rintro ⟨-, h2⟩; exact absurd h2 (not_le.2 hh))]
      have := floorScale_eq w h m
      rw [this.1, this.2]
  · rw [resampleDims, if_pos (Or.inl hw), if_neg (by rintro ⟨h1, -⟩; exact absurd h1 (not_le.2 hw))]
    have := floorScale_eq w h m
    rw [this.1, this.2]

/-! Helper lemmas about `validQ` and folded minima / maxima. -/

@[simp] theorem validQ_nil (valid : JVal → Bool) : validQ valid [] = [] := rfl

theorem validQ_cons_fin (valid : JVal → Bool) (q : ℚ) (l : List JVal) :
    validQ valid (JVal.fin q :: l) =
      if valid (JVal.fin q) then q :: validQ valid l else validQ valid l := by
  by_cases h : valid (JVal.fin q) <;> simp [validQ, List.filterMap_cons, h]

@[simp] theorem validQ_cons_nan (valid : JVal → Bool) (l : List JVal) :
    validQ valid (JVal.nan :: l) = validQ valid l := by
  simp [validQ, List.filterMap_cons]

@[simp] theorem validQ_cons_inf (valid : JVal → Bool) (l : List JVal) :
    validQ valid (JVal.inf :: l) = validQ valid l := by
  simp [validQ, List.filterMap_cons]

@[simp] theorem validQ_cons_ninf (valid : JVal → Bool) (l : List JVal) :
    validQ valid (JVal.ninf :: l) = validQ valid l := by
  simp [validQ, List.filterMap_cons]

theorem foldl_min_le_init {α : Type} [LinearOrder α] (l : List α) (a : α) :
    List.foldl min a l ≤ a := by
  induction l generalizing a with
  | nil => exact le_refl a
  | cons x l ih => exact le_trans (ih (min a x)) (min_le_left a x)

theorem foldl_min_le_mem {α : Type} [LinearOrder α] {l : List α} {b : α} (a : α)
    (hb : b ∈ l) : List.foldl min a l ≤ b := by
  induction l generalizing a with
  | nil => cases hb
  | cons x l ih =>
    rcases List.mem_cons.1 hb with rfl | hb'
    · exact le_trans (foldl_min_le_init l (min a b)) (min_le_right a b)
    · exact ih (min a x) hb'

theorem foldl_min_mem {α : Type} [LinearOrder α] (l : List α) (a : α) :
    List.foldl min a l = a ∨ List.foldl min a l ∈ l := by
  induction l generalizing a with
  | nil => exact Or.inl rfl
  | cons x l ih =>
    rcases ih (min a x) with h | h
    · rcases min_choice a x with hc | hc
      · exact Or.inl (by rw [List.foldl_cons, h, hc])
      · exact Or.inr (by rw [List.foldl_cons, h, hc]; exact List.mem_cons_self x l)
    · exact Or.inr (List.mem_cons_of_mem x h)

theorem le_foldl_max {α : Type} [LinearOrder α] (l : List α) (a : α) :
    a ≤ List.foldl max a l := by
  induction l generalizing a with
  | nil => exact le_refl a
  | cons x l ih => exact le_trans (le_max_left a x) (ih (max a x))

theorem mem_le_foldl_max {α : Type} [LinearOrder α] {l : List α} {b : α} (a : α)
    (hb : b ∈ l) : b ≤ List.foldl max a l := by
  induction l generalizing a with
  | nil => cases hb
  | cons x l ih =>
    rcases List.mem_cons.1 hb with rfl | hb'
    · exact le_trans (le_max_right a b) (le_foldl_max l (max a b))
    · exact ih (max a x) hb'

theorem foldl_max_mem {α : Type} [LinearOrder α] (l : List α) (a : α) :
    List.foldl max a l = a ∨ List.foldl max a l ∈ l := by
  induction l generalizing a with
  | nil => exact Or.inl rfl
  | cons x l ih =>
    rcases ih (max a x) with h | h
    · rcases max_choice a x with hc | hc
      · exact Or.inl (by rw [List.foldl_cons, h, hc])
      · exact Or.inr (by rw [List.foldl_cons, h, hc]; exact List.mem_cons_self x l)
    · exact Or.inr (List.mem_cons_of_mem x h)

/-! Characterisation of the two statistics folds. -/

theorem getStats_fold_fin (l : List JVal)
    (hl : ∀ v ∈ l, validComp v = true → ∃ q, v = JVal.fin q) (m M : ℚ) :
    List.foldl getStatsStep (JVal.fin m, JVal.fin M) l =
      (JVal.fin (List.foldl min m (validQ validComp l)),
       JVal.fin (List.foldl max M (validQ validComp l))) := by
  induction l generalizing m M with
  | nil => simp
  | cons v l ih =>
    have hl' : ∀ v ∈ l, validComp v = true → ∃ q, v = JVal.fin q :=
      fun v hv => hl v (List.mem_cons_of_mem _ hv)
    by_cases hv : validComp v = true
    · obtain ⟨q, rfl⟩ := hl v (List.mem_cons_self v l) hv
      rw [List.foldl_cons, getStatsStep, if_pos hv]
      have hmin : (if jlt (JVal.fin q) (JVal.fin m) then JVal.fin q else JVal.fin m) =
          JVal.fin (min m q) := by
        rcases lt_or_le q m with h | h
        · rw [if_pos (by simp [h]), min_eq_right (le_of_lt h)]
        · rw [if_neg (by simp [not_lt.2 h]), min_eq_left h]
      have hmax : (if jlt (JVal.fin M) (JVal.fin q) then JVal.fin q else JVal.fin M) =
          JVal.fin (max M q) := by
        rcases lt_or_le M q with h | h
        · rw [if_pos (by simp [h]), max_eq_right (le_of_lt h)]
        · rw [if_neg (by simp [not_lt.2 h]), max_eq_left h]
      simp only [hmin, hmax]
      rw [ih hl', validQ_cons_fin _ _ _, if_pos hv]
      simp [List.foldl_cons]
    · rw [List.foldl_cons, getStatsStep, if_neg hv]
      rw [ih hl']
      cases v with
      | fin q => rw [validQ_cons_fin _ _ _, if_neg hv]
      | nan => simp
      | inf => simp
      | ninf => simp

theorem getStats_fold_char (l : List JVal)
    (hl : ∀ v ∈ l, validComp v = true → ∃ q, v = JVal.fin q) :
    (validQ validComp l = [] ∧
       List.foldl getStatsStep (JVal.inf, JVal.ninf) l = (JVal.inf, JVal.ninf)) ∨
    (∃ q qs, validQ validComp l = q :: qs ∧
       List.foldl getStatsStep (JVal.inf, JVal.ninf) l =
         (JVal.fin (List.foldl min q qs), JVal.fin (List.foldl max q qs))) := by
  induction l with
  | nil => exact Or.inl ⟨rfl, rfl⟩
  | cons v l ih =>
    have hl' : ∀ v ∈ l, validComp v = true → ∃ q, v = JVal.fin q :=
      fun v hv => hl v (List.mem_cons_of_mem _ hv)
    by_cases hv : validComp v = true
    · obtain ⟨q, rfl⟩ := hl v (List.mem_cons_self v l) hv
      refine Or.inr ⟨q, validQ validComp l, ?_, ?_⟩
      · rw [validQ_cons_fin _ _ _, if_pos hv]
      · rw [List.foldl_cons, getStatsStep, if_pos hv]
        simpa using getStats_fold_fin l hl' q q
    · rw [List.foldl_cons, getStatsStep, if_neg hv]
      have hq : validQ validComp (v :: l) = validQ validComp l := by
        cases v with
        | fin q => rw [validQ_cons_fin _ _ _, if_neg hv]
        | nan => simp
        | inf => simp
        | ninf => simp
      rw [hq]
      exact ih hl'

theorem tiffStats_fold_fin (l : List JVal) (m M : ℚ) (k : ℕ) :
    List.foldl tiffStatsStep (JVal.fin m, JVal.fin M, k) l =
      (JVal.fin (List.foldl min m (validQ validTiff l)),
       JVal.fin (List.foldl max M (validQ validTiff l)),
       k + (validQ validTiff l).length) := by
  induction l generalizing m M k with
  | nil => simp
  | cons v l ih =>
    cases v with
    | fin q =>
      by_cases hv : validTiff (JVal.fin q) = true
      · rw [List.foldl_cons, tiffStatsStep, if_pos hv]
        have hmin : (if jlt (JVal.fin q) (JVal.fin m) then JVal.fin q else JVal.fin m) =
            JVal.fin (min m q) := by
          rcases lt_or_le q m with h | h
          · rw [if_pos (by simp [h]), min_eq_right (le_of_lt h)]
          · rw [if_neg (by simp [not_lt.2 h]), min_eq_left h]
        have hmax : (if jlt (JVal.fin M) (JVal.fin q) then JVal.fin q else JVal.fin M) =
            JVal.fin (max M q) := by
          rcases lt_or_le M q with h | h
          · rw [if_pos (by simp [h]), max_eq_right (le_of_lt h)]
          · rw [if_neg (by simp [not_lt.2 h]), max_eq_left h]
        simp only [hmin, hmax]
        rw [ih (min m q) (max M q) (k + 1), validQ_cons_fin _ _ _, if_pos hv]
        simp [List.foldl_cons, List.length_cons, Nat.add_comm, Nat.add_assoc, Nat.add_left_comm]
      · rw [List.foldl_cons, tiffStatsStep, if_neg hv, ih m M k,
          validQ_cons_fin _ _ _, if_neg hv]
    | nan => rw [List.foldl_cons, tiffStatsStep, if_neg (by simp), ih m M k]; simp
    | inf => rw [List.foldl_cons, tiffStatsStep, if_neg (by simp), ih m M k]; simp
    | ninf => rw [List.foldl_cons, tiffStatsStep, if_neg (by simp), ih m M k]; simp

theorem tiffStats_char (l : List JVal) :
    (validQ validTiff l = [] ∧ tiffStats l = (JVal.inf, JVal.ninf, 0)) ∨
    (∃ q qs, validQ validTiff l = q :: qs ∧
       tiffStats l =
         (JVal.fin (List.foldl min q qs), JVal.fin (List.foldl max q qs), qs.length + 1)) := by
  have main : ∀ l : List JVal,
      (validQ validTiff l = [] ∧
         List.foldl tiffStatsStep (JVal.inf, JVal.ninf, 0) l = (JVal.inf, JVal.ninf, 0)) ∨
      (∃ q qs, validQ validTiff l = q :: qs ∧
         List.foldl tiffStatsStep (JVal.inf, JVal.ninf, 0) l =
           (JVal.fin (List.foldl min q qs), JVal.fin (List.foldl max q qs), qs.length + 1)) := by
    intro l
    induction l with
    | nil => exact Or.inl ⟨rfl, rfl⟩
    | cons v l ih =>
      cases v with
      | fin q =>
        by_cases hv : validTiff (JVal.fin q) = true
        · refine Or.inr ⟨q, validQ validTiff l, ?_, ?_⟩
          · rw [validQ_cons_fin _ _ _, if_pos hv]
          · rw [List.foldl_cons, tiffStatsStep, if_pos hv]
            have := tiffStats_fold_fin l q q 1
            simpa [Nat.add_comm] using this
        · rw [List.foldl_cons, tiffStatsStep, if_neg hv]
          have hq : validQ validTiff (JVal.fin q :: l) = validQ validTiff l := by
            rw [validQ_cons_fin _ _ _, if_neg hv]
          rw [hq]; exact ih
      | nan =>
        rw [List.foldl_cons, tiffStatsStep, if_neg (by simp)]
        simpa using ih
      | inf =>
        rw [List.foldl_cons, tiffStatsStep, if_neg (by simp)]
        simpa using ih
      | ninf =>
        rw [List.foldl_cons, tiffStatsStep, if_neg (by simp)]
        simpa using ih
  exact main l

/-- Reading every index of a list through `getD` reproduces the list. -/
theorem range_map_getD (l : List JVal) :
    (List.range l.length).map (fun k => l.getD k JVal.nan) = l := by
  induction l with
  | nil => rfl
  | cons x l ih =>
    rw [List.length_cons, List.range_succ_eq_map, List.map_cons, List.map_map,
      List.getD_cons_zero]
    have hc : ((fun k => (x :: l).getD k JVal.nan) ∘ Nat.succ) =
        fun k => l.getD k JVal.nan := by
      funext k
      simp
    rw [hc, ih]

/-- With stride 1 the sampling loop visits the whole array. -/
theorem sampledAt_one (l : List JVal) : sampledAt l 1 = l := by
  unfold sampledAt
  simp only [Nat.add_sub_cancel, Nat.div_one, Nat.mul_one]
  exact range_map_getD l

/-- Arrays with fewer than 10000 entries are scanned with stride 1. -/
theorem getStats_small (data : List JVal) (h : data.length < 10000) :
    getStats data = List.foldl getStatsStep (JVal.inf, JVal.ninf) data := by
  unfold getStats
  have hstep : max 1 (data.length / 5000) = 1 :=
    Nat.max_eq_left (Nat.lt_succ_iff.1 ((Nat.div_lt_iff_lt_mul (by norm_num)).2 h))
  rw [hstep]
  show List.foldl getStatsStep (JVal.inf, JVal.ninf) (sampledAt data 1) = _
  rw [sampledAt_one]

/-- C1 (amended).  Single-band path (`TiffLayer.processTiff`): for every
sample array whose valid values (`v ≠ -9999`, `v ≠ 0`, `v` finite) are
non-empty, the full-scan statistics return a non-empty range whose min and
max are attained by valid values and bound all valid values, with the valid
count.  Composite path (`CompositeTiffLayer.getStats`): the same holds only
under the additional hypotheses that the array is shorter than 10000 entries
(so the sampling stride is 1) and contains no ±Infinity (the code only
filters NaN, not Infinity). -/
theorem C1_statistics_engine_amended :
    (∀ data : List JVal, validQ validTiff data ≠ [] →
       ∃ m M, tiffStats data = (JVal.fin m, JVal.fin M, (validQ validTiff data).length) ∧
         m ∈ validQ validTiff data ∧ M ∈ validQ validTiff data ∧ m ≤ M ∧
         ∀ q ∈ validQ validTiff data, m ≤ q ∧ q ≤ M) ∧
    (∀ data : List JVal, data.length < 10000 →
       (∀ v ∈ data, v ≠ JVal.inf ∧ v ≠ JVal.ninf) →
       validQ validComp data ≠ [] →
       ∃ m M, getStats data = (JVal.fin m, JVal.fin M) ∧
         m ∈ validQ validComp data ∧ M ∈ validQ validComp data ∧ m ≤ M ∧
         ∀ q ∈ validQ validComp data, m ≤ q ∧ q ≤ M) := by
  constructor
  · intro data hne
    rcases tiffStats_char data with ⟨h1, -⟩ | ⟨q, qs, hq, hstats⟩
    · exact absurd h1 hne
    refine ⟨List.foldl min q qs, List.foldl max q qs, ?_, ?_, ?_, ?_, ?_⟩
    · rw [hstats, hq, List.length_cons]
    · rw [hq]
      rcases foldl_min_mem qs q with h | h
      · rw [h]; exact List.mem_cons_self q qs
      · exact List.mem_cons_of_mem q h
    · rw [hq]
      rcases foldl_max_mem qs q with h | h
      · rw [h]; exact List.mem_cons_self q qs
      · exact List.mem_cons_of_mem q h
    · exact le_trans (foldl_min_le_init qs q) (le_foldl_max qs q)
    · rw [hq]
      intro x hx
      rcases List.mem_cons.1 hx with rfl | hx'
      · exact ⟨foldl_min_le_init qs x, le_foldl_max qs x⟩
      · exact ⟨foldl_min_le_mem q hx', mem_le_foldl_max q hx'⟩
  · intro data hlen hinf hne
    have hl : ∀ v ∈ data, validComp v = true → ∃ q, v = JVal.fin q := by
      intro v hv hval
      cases v with
      | fin q => exact ⟨q, rfl⟩
      | nan => simp at hval
      | inf => exact absurd rfl (hinf _ hv).1
      | ninf => exact absurd rfl (hinf _ hv).2
    rw [getStats_small data hlen]
    rcases getStats_fold_char data hl with ⟨h1, -⟩ | ⟨q, qs, hq, hstats⟩
    · exact absurd h1 hne
    refine ⟨List.foldl min q qs, List.foldl max q qs, hstats, ?_, ?_, ?_, ?_⟩
    · rw [hq]
      rcases foldl_min_mem qs q with h | h
      · rw [h]; exact List.mem_cons_self q qs
      · exact List.mem_cons_of_mem q h
    · rw [hq]
      rcases foldl_max_mem qs q with h | h
      · rw [h]; exact List.mem_cons_self q qs
      · exact List.mem_cons_of_mem q h
    · exact le_trans (foldl_min_le_init qs q) (le_foldl_max qs q)
    · rw [hq]
      intro x hx
      rcases List.mem_cons.1 hx with rfl | hx'
      · exact ⟨foldl_min_le_init qs x, le_foldl_max qs x⟩
      · exact ⟨foldl_min_le_mem q hx', mem_le_foldl_max q hx'⟩

/-- C1 witness: the amended theorem applied to the concrete arrays
`[3, -9999, 0, 7]` (full-scan path) and `[3, 7, nan]` (composite path). -/
theorem C1_statistics_engine_witness :
    (∃ m M, tiffStats [JVal.fin 3, JVal.fin (-9999), JVal.fin 0, JVal.fin 7] =
        (JVal.fin m, JVal.fin M,
          (validQ validTiff [JVal.fin 3, JVal.fin (-9999), JVal.fin 0, JVal.fin 7]).length) ∧
      m ∈ validQ validTiff [JVal.fin 3, JVal.fin (-9999), JVal.fin 0, JVal.fin 7] ∧
      M ∈ validQ validTiff [JVal.fin 3, JVal.fin (-9999), JVal.fin 0, JVal.fin 7] ∧ m ≤ M ∧
      ∀ q ∈ validQ validTiff [JVal.fin 3, JVal.fin (-9999), JVal.fin 0, JVal.fin 7],
        m ≤ q ∧ q ≤ M) ∧
    (∃ m M, getStats [JVal.fin 3, JVal.fin 7, JVal.nan] = (JVal.fin m, JVal.fin M) ∧
      m ∈ validQ validComp [JVal.fin 3, JVal.fin 7, JVal.nan] ∧
      M ∈ validQ validComp [JVal.fin 3, JVal.fin 7, JVal.nan] ∧ m ≤ M ∧
      ∀ q ∈ validQ validComp [JVal.fin 3, JVal.fin 7, JVal.nan], m ≤ q ∧ q ≤ M) :=
  ⟨C1_statistics_engine_amended.1 _ (by norm_num [validQ_cons_fin]; simp),
   C1_statistics_engine_amended.2 _ (by norm_num)
     (by intro v hv; fin_cases hv <;> simp)
     (by norm_num [validQ_cons_fin]; simp)⟩

/-- C1 counterexample: `getStats` on `[1, Infinity]` returns max = Infinity,
although the only value that is `≠ -9999`, `≠ 0` and finite is 1 — the claim
that min and max are computed only over finite valid values is false for the
composite-path statistics engine. -/
theorem C1_statistics_engine_cex :
    getStats [JVal.fin 1, JVal.inf] = (JVal.fin 1, JVal.inf) ∧
    validQ validComp [JVal.fin 1, JVal.inf] = [1] := by
  constructor
  · norm_num [getStats, sampledAt, getStatsStep, List.range_succ]
  · norm_num [validQ_cons_fin]

/-! Evaluation lemmas for the arithmetic of `stretch`. -/

@[simp] theorem jsub_fin_fin (a b : ℚ) : jsub (JVal.fin a) (JVal.fin b) = JVal.fin (a - b) := rfl

theorem jdiv_fin_fin (a b : ℚ) :
    jdiv (JVal.fin a) (JVal.fin b) =
      if b = 0 then (if a = 0 then JVal.nan else if 0 < a then JVal.inf else JVal.ninf)
      else JVal.fin (a / b) := rfl

@[simp] theorem jmul_fin_fin (a b : ℚ) : jmul (JVal.fin a) (JVal.fin b) = JVal.fin (a * b) := rfl

theorem jmaxOp_fin_fin (a b : ℚ) : jmaxOp (JVal.fin a) (JVal.fin b) = JVal.fin (max a b) := by
  rcases lt_or_le a b with h | h
  · rw [jmaxOp, if_neg (by simp [jIsNaN]), if_pos (by simp [h]), max_eq_right (le_of_lt h)]
  · rw [jmaxOp, if_neg (by simp [jIsNaN]), if_neg (by simp [not_lt.2 h]), max_eq_left h]

theorem jminOp_fin_fin (a b : ℚ) : jminOp (JVal.fin a) (JVal.fin b) = JVal.fin (min a b) := by
  rcases lt_or_le b a with h | h
  · rw [jminOp, if_neg (by simp [jIsNaN]), if_pos (by simp [h]), min_eq_right (le_of_lt h)]
  · rw [jminOp, if_neg (by simp [jIsNaN]), if_neg (by simp [not_lt.2 h]), min_eq_left h]

@[simp] theorem jmaxOp_nan_right (a : JVal) : jmaxOp a JVal.nan = JVal.nan := by
  simp [jmaxOp, jIsNaN]

@[simp] theorem jminOp_nan_right (a : JVal) : jminOp a JVal.nan = JVal.nan := by
  simp [jminOp, jIsNaN]

@[simp] theorem jpowG_fin (pw : ℚ → ℚ) (q : ℚ) :
    jpowG pw (JVal.fin q) = if q < 0 then JVal.nan else JVal.fin (pw q) := rfl

@[simp] theorem jpowG_nan (pw : ℚ → ℚ) : jpowG pw JVal.nan = JVal.nan := rfl

@[simp] theorem jmul_nan_left (x : JVal) : jmul JVal.nan x = JVal.nan := by
  cases x <;> rfl

/-- C2 (amended).  For finite samples with `min ≤ v ≤ max` and `min < max` the
code stretch equals the specification formula `clamp(0,255, pw(norm) * 255)`
(with the same abstract gamma power `pw`, assumed non-negative on non-negative
inputs, as `x ^ 0.8` is).  In the degenerate case `max == min`, however, the
code does NOT produce the constant 128: a sample equal to `min` is divided
0/0 into NaN, which the pixel buffer stores as 0. -/
theorem C2_stretch_amended :
    (∀ pw : ℚ → ℚ, (∀ q, 0 ≤ q → 0 ≤ pw q) →
       ∀ v mn mx : ℚ, mn ≤ v → v ≤ mx → mn < mx →
         stretch pw (JVal.fin v) (JVal.fin mn) (JVal.fin mx) =
           JVal.fin (specStretch pw v mn mx)) ∧
    (∀ (pw : ℚ → ℚ) (mn : ℚ),
       stretch pw (JVal.fin mn) (JVal.fin mn) (JVal.fin mn) = JVal.nan ∧
       toClamped (stretch pw (JVal.fin mn) (JVal.fin mn) (JVal.fin mn)) = 0) := by
  constructor
  · intro pw hpw v mn mx h1 h2 h3
    have hd : mx - mn ≠ 0 := sub_ne_zero.2 (ne_of_gt h3)
    have hn : 0 ≤ (v - mn) / (mx - mn) :=
      div_nonneg (sub_nonneg.2 h1) (sub_nonneg.2 (le_of_lt h3))
    have hx : 0 ≤ pw ((v - mn) / (mx - mn)) * 255 :=
      mul_nonneg (hpw _ hn) (by norm_num)
    rw [stretch, jsub_fin_fin, jsub_fin_fin, jdiv_fin_fin, if_neg hd,
      jmaxOp_fin_fin, max_eq_right hn, jpowG_fin, if_neg (not_lt.2 hn),
      jmul_fin_fin, jminOp_fin_fin, specStretch,
      max_eq_right (le_min (by norm_num) hx)]
  · intro pw mn
    have h : stretch pw (JVal.fin mn) (JVal.fin mn) (JVal.fin mn) = JVal.nan := by
      rw [stretch, jsub_fin_fin, sub_self, jdiv_fin_fin,
        if_pos rfl, if_pos rfl, jmaxOp_nan_right, jpowG_nan, jmul_nan_left,
        jminOp_nan_right]
    exact ⟨h, by rw [h]; rfl⟩

/-- C2 witness: the amended theorem at `pw = id`, `v = 1`, `min = 0`,
`max = 2`, and the degenerate case at `min = max = 5`. -/
theorem C2_stretch_witness :
    stretch (fun q => q) (JVal.fin 1) (JVal.fin 0) (JVal.fin 2) =
      JVal.fin (specStretch (fun q => q) 1 0 2) ∧
    stretch (fun q => q) (JVal.fin 5) (JVal.fin 5) (JVal.fin 5) = JVal.nan ∧
    toClamped (stretch (fun q => q) (JVal.fin 5) (JVal.fin 5) (JVal.fin 5)) = 0 :=
  ⟨C2_stretch_amended.1 _ (fun _ h => h) 1 0 2 (by norm_num) (by norm_num) (by norm_num),
   C2_stretch_amended.2 _ 5⟩

/-- C2 counterexample: with `max == min` the stretched value of a sample equal
to `min` is NaN, stored as byte 0 — not the constant 128 the claim states. -/
theorem C2_stretch_cex :
    stretch (fun q => q) (JVal.fin 5) (JVal.fin 5) (JVal.fin 5) = JVal.nan ∧
    toClamped (stretch (fun q => q) (JVal.fin 5) (JVal.fin 5) (JVal.fin 5)) ≠ 128 := by
  constructor
  · norm_num [stretch, jsub, jdiv, jmaxOp, jminOp, jpowG, jIsNaN]
  · norm_num [stretch, jsub, jdiv, jmaxOp, jminOp, jpowG, jIsNaN, toClamped]

/-! Index-access helpers. -/

theorem range_map_getD_lt {α : Type} (n i : ℕ) (f : ℕ → α) (d : α) (h : i < n) :
    ((List.range n).map f).getD i d = f i := by
  rw [List.getD_eq_getElem?_getD, List.getElem?_map, List.getElem?_range h]
  rfl

theorem getD_replicate_lt {α : Type} (n i : ℕ) (a d : α) (h : i < n) :
    (List.replicate n a).getD i d = a := by
  rw [List.getD_eq_getElem?_getD, List.getElem?_replicate, if_pos h]
  rfl

/-- The alpha byte of a composite pixel depends only on the red sample. -/
theorem compositePixel_a (pw : ℚ → ℚ) (rs gs bs : JVal × JVal) (rv gv bv : JVal) :
    (compositePixel pw rs gs bs rv gv bv).a =
      if rv = JVal.fin (-9999) ∨ rv = JVal.fin 0 ∨ jIsNaN rv then 0 else 255 := by
  rw [compositePixel, apply_ite Rgba.a]

/-- C3 (amended).  Single-band path: starting from an image whose alpha bytes
are 255, the mask of `TiffLayer.processTiff` yields alpha 0 exactly when the
sample equals -9999, equals 0, or is non-finite, and 255 otherwise.
Composite path: alpha is 0 exactly when the RED sample equals -9999, equals 0,
or is NaN — a ±Infinity red sample is NOT masked (the code tests only
`isNaN`), so "non-finite ⇒ alpha 0" fails there. -/
theorem C3_alpha_mask_amended :
    (∀ (data : List JVal) (i : ℕ), i < data.length →
       (tiffMask data (List.replicate data.length 255)).getD i 0 =
         if data.getD i JVal.nan = JVal.fin (-9999) ∨ data.getD i JVal.nan = JVal.fin 0 ∨
             jIsFinite (data.getD i JVal.nan) = false then 0 else 255) ∧
    (∀ (pw : ℚ → ℚ) (rArr gArr bArr : List JVal) (i : ℕ), i < rArr.length →
       ((processCompositePixels pw rArr gArr bArr).getD i ⟨0, 0, 0, 0⟩).a =
         if rArr.getD i JVal.nan = JVal.fin (-9999) ∨ rArr.getD i JVal.nan = JVal.fin 0 ∨
             jIsNaN (rArr.getD i JVal.nan) = true then 0 else 255) := by
  constructor
  · intro data i h
    rw [tiffMask, range_map_getD_lt _ _ _ _ h]
    by_cases hc : data.getD i JVal.nan = JVal.fin (-9999) ∨ data.getD i JVal.nan = JVal.fin 0 ∨
        jIsFinite (data.getD i JVal.nan) = false
    · rw [if_pos hc, if_pos hc]
    · rw [if_neg hc, if_neg hc, getD_replicate_lt _ _ _ _ h]
  · intro pw rArr gArr bArr i h
    rw [processCompositePixels, range_map_getD_lt _ _ _ _ h, compositePixel_a]

/-- C3 witness: the amended theorem applied to `[5, -9999]` (single band,
index 0) and red band `[5]` (composite, index 0). -/
theorem C3_alpha_mask_witness :
    (tiffMask [JVal.fin 5, JVal.fin (-9999)] (List.replicate 2 255)).getD 0 0 =
      (if [JVal.fin 5, JVal.fin (-9999)].getD 0 JVal.nan = JVal.fin (-9999) ∨
          [JVal.fin 5, JVal.fin (-9999)].getD 0 JVal.nan = JVal.fin 0 ∨
          jIsFinite ([JVal.fin 5, JVal.fin (-9999)].getD 0 JVal.nan) = false then 0 else 255) ∧
    ((processCompositePixels (fun q => q) [JVal.fin 5] [JVal.fin 1] [JVal.fin 1]).getD 0
        ⟨0, 0, 0, 0⟩).a =
      (if [JVal.fin 5].getD 0 JVal.nan = JVal.fin (-9999) ∨
          [JVal.fin 5].getD 0 JVal.nan = JVal.fin 0 ∨
          jIsNaN ([JVal.fin 5].getD 0 JVal.nan) = true then 0 else 255) :=
  ⟨C3_alpha_mask_amended.1 [JVal.fin 5, JVal.fin (-9999)] 0 (by norm_num),
   C3_alpha_mask_amended.2 (fun q => q) [JVal.fin 5] [JVal.fin 1] [JVal.fin 1] 0 (by norm_num)⟩

/-- C3 counterexample: a red sample of +Infinity is non-finite, yet the
composite path renders the pixel fully opaque (alpha 255), where the claim
demands alpha 0. -/
theorem C3_alpha_mask_cex :
    ((processCompositePixels (fun q => q) [JVal.inf] [JVal.fin 1] [JVal.fin 1]).getD 0
        ⟨0, 0, 0, 0⟩).a = 255 ∧
    jIsFinite JVal.inf = false := by
  constructor
  · norm_num [processCompositePixels, compositePixel, getStats, sampledAt, getStatsStep,
      List.range_succ, stretch, jsub, jdiv, jmaxOp, jminOp, jpowG, jmul, jIsNaN, toClamped]
  · rfl

/-- C10 (confirmed).  In three-band composite mode the output alpha channel is
a function of the red sample array alone: two runs agreeing on red but
differing on green/blue produce identical alpha channels; and concretely a
pixel whose green sample is the -9999 sentinel and whose blue sample is NaN
but whose red sample is valid is rendered fully opaque. -/
theorem C10_alpha_red_only :
    (∀ (pw : ℚ → ℚ) (rArr g1 b1 g2 b2 : List JVal),
       (processCompositePixels pw rArr g1 b1).map Rgba.a =
         (processCompositePixels pw rArr g2 b2).map Rgba.a) ∧
    (processCompositePixels (fun q => q) [JVal.fin 5, JVal.fin 7]
        [JVal.fin (-9999), JVal.fin 3] [JVal.nan, JVal.fin 4]).map Rgba.a = [255, 255] := by
  constructor
  · intro pw rArr g1 b1 g2 b2
    rw [processCompositePixels, processCompositePixels, List.map_map, List.map_map]
    refine List.map_congr_left fun i _ => ?_
    simp only [Function.comp_apply, compositePixel_a]
  · norm_num [processCompositePixels, compositePixel, getStats, sampledAt, getStatsStep,
      List.range_succ, stretch, jsub, jdiv, jmaxOp, jminOp, jpowG, jmul, jIsNaN, toClamped]

/-- C6 (amended).  Single-band path: when a band has zero valid samples the
pipeline is terminal — `TiffLayer.processTiff` raises "No valid data values
found" and no image is produced.  Composite path: `processComposite` performs
NO such check; it always produces a full-length pixel buffer and keeps
stretching against the empty range (the concrete continuation is exhibited by
the counterexample). -/
theorem C6_empty_range_amended :
    (∀ data : List JVal, validQ validTiff data = [] →
       tiffDomain data = Except.error "No valid data values found") ∧
    (∀ (pw : ℚ → ℚ) (rArr gArr bArr : List JVal),
       (processCompositePixels pw rArr gArr bArr).length = rArr.length) := by
  constructor
  · intro data hempty
    rcases tiffStats_char data with ⟨-, hstats⟩ | ⟨q, qs, hq, -⟩
    · rw [tiffDomain]
      simp [hstats]
    · rw [hempty] at hq
      cases hq
  · intro pw rArr gArr bArr
    rw [processCompositePixels, List.length_map, List.length_range]

/-- C6 witness: the amended theorem applied to the all-invalid band `[0]`
(single-band path) and to concrete composite arrays of length 1. -/
theorem C6_empty_range_witness :
    tiffDomain [JVal.fin 0] = Except.error "No valid data values found" ∧
    (processCompositePixels (fun q => q) [JVal.fin 5] [JVal.fin 0] [JVal.fin 5]).length = 1 :=
  ⟨C6_empty_range_amended.1 [JVal.fin 0] (by norm_num [validQ_cons_fin]),
   C6_empty_range_amended.2 (fun q => q) [JVal.fin 5] [JVal.fin 0] [JVal.fin 5]⟩

/-- C6 counterexample: the green band `[0]` has zero valid samples (its range
is the empty `(Infinity, -Infinity)`), yet the composite pipeline does not
abort: it produces an opaque pixel, stretching through the empty range. -/
theorem C6_empty_range_cex :
    getStats [JVal.fin 0] = (JVal.inf, JVal.ninf) ∧
    processCompositePixels (fun q => q) [JVal.fin 5] [JVal.fin 0] [JVal.fin 5] =
      [⟨0, 0, 0, 255⟩] := by
  constructor
  · norm_num [getStats, sampledAt, getStatsStep, List.range_succ]
  · norm_num [processCompositePixels, compositePixel, getStats, sampledAt, getStatsStep,
      List.range_succ, stretch, jsub, jdiv, jmaxOp, jminOp, jpowG, jmul, jIsNaN, toClamped]

/-- C4 (amended).  The single-band path validates ONLY the south-west corner:
the build fails exactly when the computed south-west corner violates
`|lat| ≤ 90 ∨ |lon| ≤ 180`; the north-east corner is never inspected.  The
composite path returns the transformed corners with no validation at all. -/
theorem C4_projection_validation_amended (T : ℚ × ℚ → ℚ × ℚ) (p : String)
    (b0 b1 b2 b3 : ℚ) :
    ((∃ e, tiffBounds T p b0 b1 b2 b3 = Except.error e) ↔
       90 < |(projCorners T p b0 b1 b2 b3).1.1| ∨
       180 < |(projCorners T p b0 b1 b2 b3).1.2|) ∧
    compositeBounds T p b0 b1 b2 b3 = projCorners T p b0 b1 b2 b3 := by
  refine ⟨?_, rfl⟩
  by_cases hc : 90 < |(projCorners T p b0 b1 b2 b3).1.1| ∨
      180 < |(projCorners T p b0 b1 b2 b3).1.2|
  · exact iff_of_true
      ⟨"Invalid coordinates after transformation", by rw [tiffBounds, if_pos hc]⟩ hc
  · refine iff_of_false ?_ hc
    rintro ⟨e, he⟩
    rw [tiffBounds, if_neg hc] at he
    cases he

/-- C4 counterexample: with a transform sending the south-west corner to the
valid `(lat 20, lon 10)` but the north-east corner to the invalid
`(lat 100, lon 10)`, the single-band path raises no `ProjectionError` and
returns the bounds — the claim that every output coordinate is validated is
false. -/
theorem C4_projection_validation_cex :
    tiffBounds (fun c => if c.1 = 200 then ((10 : ℚ), (20 : ℚ)) else (10, 100))
        "EPSG:32633" 200 5 300 6 =
      Except.ok ((20, 10), (100, 10)) ∧
    ¬ |(100 : ℚ)| ≤ 90 := by
  constructor
  · rw [tiffBounds, projCorners,
      if_pos (show ("EPSG:32633" : String) ≠ "EPSG:4326" ∧ (180 : ℚ) < |(200 : ℚ)| from
        ⟨by decide, by norm_num⟩)]
    norm_num
  · norm_num

/-- C5 (confirmed).  For valid dimensions and a positive bound, the resampler
output (a) never exceeds `max_dimension` on either axis, (b) is a no-op when
both axes already fit, (c) otherwise divides both axes by the one common
scale `max w h / m` (floored), and (d) preserves the aspect ratio within
rounding error: the cross products `out_w * h` and `out_h * w` differ by less
than `max w h`. -/
theorem C5_resampler_bounds (w h m : ℕ) (hw : 1 ≤ w) (hh : 1 ≤ h) (hm : 1 ≤ m) :
    max (resampleDims w h m).1 (resampleDims w h m).2 ≤ m ∧
    (w ≤ m ∧ h ≤ m → resampleDims w h m = (w, h)) ∧
    (¬(w ≤ m ∧ h ≤ m) → resampleDims w h m = (w * m / max w h, h * m / max w h)) ∧
    |((resampleDims w h m).1 : ℤ) * h - ((resampleDims w h m).2 : ℤ) * w| < max w h := by
  have hM : 0 < max w h := lt_of_lt_of_le hw (le_max_left w h)
  have hdiv : ∀ x : ℕ, x ≤ max w h → x * m / max w h ≤ m := by
    intro x hx
    calc x * m / max w h ≤ max w h * m / max w h :=
          Nat.div_le_div_right (Nat.mul_le_mul_right m hx)
    _ = m := Nat.mul_div_cancel_left m hM
  by_cases hfit : w ≤ m ∧ h ≤ m
  · rw [resampleDims_eq, if_pos hfit]
    refine ⟨max_le hfit.1 hfit.2, fun _ => rfl, fun hc => absurd hfit hc, ?_⟩
    have : (w : ℤ) * h - (h : ℤ) * w = 0 := by ring
    rw [this, abs_zero]
    exact_mod_cast hM
  · rw [resampleDims_eq, if_neg hfit]
    refine ⟨max_le (hdiv w (le_max_left w h)) (hdiv h (le_max_right w h)),
      fun hc => absurd hc hfit, fun _ => rfl, ?_⟩
    set M := max w h with hMdef
    set q1 := w * m / M with hq1
    set r1 := w * m % M with hr1
    set q2 := h * m / M with hq2
    set r2 := h * m % M with hr2
    have e1 : (M : ℤ) * q1 + r1 = (w : ℤ) * m := by
      have := Nat.div_add_mod (w * m) M
      exact_mod_cast congrArg (Nat.cast : ℕ → ℤ) this
    have e2 : (M : ℤ) * q2 + r2 = (h : ℤ) * m := by
      have := Nat.div_add_mod (h * m) M
      exact_mod_cast congrArg (Nat.cast : ℕ → ℤ) this
    have key : (M : ℤ) * ((q1 : ℤ) * h - (q2 : ℤ) * w) = (r2 : ℤ) * w - (r1 : ℤ) * h := by
      have hcross : ((w : ℤ) * m) * h = ((h : ℤ) * m) * w := by ring
      nlinarith [e1, e2, hcross]
    have hr1b : (r1 : ℤ) < M := by exact_mod_cast Nat.mod_lt (w * m) hM
    have hr2b : (r2 : ℤ) < M := by exact_mod_cast Nat.mod_lt (h * m) hM
    have hr1n : (0 : ℤ) ≤ r1 := Int.natCast_nonneg r1
    have hr2n : (0 : ℤ) ≤ r2 := Int.natCast_nonneg r2
    have hwM : (w : ℤ) ≤ M := by exact_mod_cast le_max_left w h
    have hhM : (h : ℤ) ≤ M := by exact_mod_cast le_max_right w h
    have hwn : (0 : ℤ) ≤ w := Int.natCast_nonneg w
    have hhn : (0 : ℤ) ≤ h := Int.natCast_nonneg h
    have hMz : (0 : ℤ) < M := by exact_mod_cast hM
    have hbound : |(r2 : ℤ) * w - (r1 : ℤ) * h| < (M : ℤ) * M := by
      rw [abs_lt]
      constructor
      · nlinarith [mul_nonneg hr2n hwn, mul_lt_mul_of_pos_right hr1b hMz,
          mul_le_mul_of_nonneg_left hhM hr1n]
      · nlinarith [mul_nonneg hr1n hhn, mul_lt_mul_of_pos_right hr2b hMz,
          mul_le_mul_of_nonneg_left hwM hr2n]
    have habs : (M : ℤ) * |(q1 : ℤ) * h - (q2 : ℤ) * w| < (M : ℤ) * M := by
      calc (M : ℤ) * |(q1 : ℤ) * h - (q2 : ℤ) * w|
          = |(M : ℤ) * ((q1 : ℤ) * h - (q2 : ℤ) * w)| := by
            rw [abs_mul, abs_of_pos hMz]
      _ = |(r2 : ℤ) * w - (r1 : ℤ) * h| := by rw [key]
      _ < (M : ℤ) * M := hbound
    exact lt_of_mul_lt_mul_left habs (le_of_lt hMz)

/-- C5 witness: the theorem at the concrete raster 4000×3000 with the
single-band bound 2048. -/
theorem C5_resampler_bounds_witness :
    max (resampleDims 4000 3000 2048).1 (resampleDims 4000 3000 2048).2 ≤ 2048 ∧
    (4000 ≤ 2048 ∧ 3000 ≤ 2048 → resampleDims 4000 3000 2048 = (4000, 3000)) ∧
    (¬(4000 ≤ 2048 ∧ 3000 ≤ 2048) →
       resampleDims 4000 3000 2048 = (4000 * 2048 / max 4000 3000, 3000 * 2048 / max 4000 3000)) ∧
    |((resampleDims 4000 3000 2048).1 : ℤ) * 3000 - ((resampleDims 4000 3000 2048).2 : ℤ) * 4000|
      < max 4000 3000 :=
  C5_resampler_bounds 4000 3000 2048 (by norm_num) (by norm_num) (by norm_num)

/-- C8 (amended).  The resampler output never collapses to zero PROVIDED the
aspect ratio is bounded by the dimension cap (`max w h ≤ min w h * m`); the
unrestricted claim is false: an extreme aspect ratio floors one axis to 0
(see the counterexample). -/
theorem C8_resampler_nonzero (w h m : ℕ) (hw : 1 ≤ w) (hh : 1 ≤ h) (hm : 1 ≤ m)
    (haspect : max w h ≤ min w h * m) :
    1 ≤ (resampleDims w h m).1 ∧ 1 ≤ (resampleDims w h m).2 := by
  have hM : 0 < max w h := lt_of_lt_of_le hw (le_max_left w h)
  by_cases hfit : w ≤ m ∧ h ≤ m
  · rw [resampleDims_eq, if_pos hfit]
    exact ⟨hw, hh⟩
  · rw [resampleDims_eq, if_neg hfit]
    constructor
    · rw [Nat.one_le_div_iff hM]
      calc max w h ≤ min w h * m := haspect
      _ ≤ w * m := Nat.mul_le_mul_right m (min_le_left w h)
    · rw [Nat.one_le_div_iff hM]
      calc max w h ≤ min w h * m := haspect
      _ ≤ h * m := Nat.mul_le_mul_right m (min_le_right w h)

/-- C8 witness: the amended theorem at the concrete raster 4000×3000 with
bound 2048 (aspect ratio well inside the cap). -/
theorem C8_resampler_nonzero_witness :
    1 ≤ (resampleDims 4000 3000 2048).1 ∧ 1 ≤ (resampleDims 4000 3000 2048).2 :=
  C8_resampler_nonzero 4000 3000 2048 (by norm_num) (by norm_num) (by norm_num) (by norm_num)

/-- C8 counterexample: a valid 1×10000 raster with the single-band bound 2048
is resampled to width `⌊1 / (10000/2048)⌋ = 0` — a zero-size result, which the
claim says is impossible. -/
theorem C8_resampler_nonzero_cex : (resampleDims 1 10000 2048).1 = 0 := by
  rw [resampleDims_eq]
  norm_num

/-! Heatmap helper lemmas. -/

theorem minList_le {l : List ℚ} {t : ℚ} (h : t ∈ l) : minList l ≤ t := by
  cases l with
  | nil => cases h
  | cons a as =>
    rcases List.mem_cons.1 h with rfl | h'
    · exact foldl_min_le_init as t
    · exact foldl_min_le_mem a h'

theorem le_maxList {l : List ℚ} {t : ℚ} (h : t ∈ l) : t ≤ maxList l := by
  cases l with
  | nil => cases h
  | cons a as =>
    rcases List.mem_cons.1 h with rfl | h'
    · exact le_foldl_max as t
    · exact mem_le_foldl_max a h'

theorem minList_mem {l : List ℚ} (h : l ≠ []) : minList l ∈ l := by
  cases l with
  | nil => exact absurd rfl h
  | cons a as =>
    rcases foldl_min_mem as a with h' | h'
    · rw [minList, h']; exact List.mem_cons_self a as
    · exact List.mem_cons_of_mem a h'

theorem maxList_mem {l : List ℚ} (h : l ≠ []) : maxList l ∈ l := by
  cases l with
  | nil => exact absurd rfl h
  | cons a as =>
    rcases foldl_max_mem as a with h' | h'
    · rw [maxList, h']; exact List.mem_cons_self a as
    · exact List.mem_cons_of_mem a h'

/-- Unfolding of `heatData` with no override on a non-empty point list. -/
theorem heatData_none_char (points : List HeatmapPoint) (hne : points ≠ []) :
    heatData points none none =
      points.map fun p =>
        (p.lat, p.lon,
          if 0 < maxList (points.map HeatmapPoint.temp) -
              minList (points.map HeatmapPoint.temp) then
            (p.temp - minList (points.map HeatmapPoint.temp)) /
              (maxList (points.map HeatmapPoint.temp) -
                minList (points.map HeatmapPoint.temp))
          else 1 / 2) := by
  rw [heatData,
    if_neg (show ¬points.isEmpty = true by simp [List.isEmpty_iff, hne])]
  rfl

/-- C7 (confirmed).  With no override and a non-empty sample list, the
normalizer takes min/max over all sample temperatures and maps each point to
intensity `(t - min)/(max - min)`, or the constant 1/2 when `max = min`; in
particular the inputs `[(0,0,10), (1,1,20), (2,2,30)]` yield intensities
`[0, 1/2, 1]`. -/
theorem C7_heatmap_normalizer (points : List HeatmapPoint) (hne : points ≠ []) :
    (∃ mn mx, (∀ p ∈ points, mn ≤ p.temp ∧ p.temp ≤ mx) ∧
       (∃ p ∈ points, p.temp = mn) ∧ (∃ p ∈ points, p.temp = mx) ∧
       heatData points none none =
         points.map fun p =>
           (p.lat, p.lon, if mx = mn then 1 / 2 else (p.temp - mn) / (mx - mn))) ∧
    heatData [⟨0, 0, 10⟩, ⟨1, 1, 20⟩, ⟨2, 2, 30⟩] none none =
      [(0, 0, 0), (1, 1, 1 / 2), (2, 2, 1)] := by
  constructor
  · set temps := points.map HeatmapPoint.temp with htemps
    have htne : temps ≠ [] := by
      rw [htemps]
      exact fun hcontra => hne (List.map_eq_nil.1 hcontra)
    refine ⟨minList temps, maxList temps, ?_, ?_, ?_, ?_⟩
    · intro p hp
      have : p.temp ∈ temps := htemps ▸ List.mem_map_of_mem HeatmapPoint.temp hp
      exact ⟨minList_le this, le_maxList this⟩
    · obtain ⟨p, hp, hpt⟩ := List.mem_map.1 (htemps ▸ minList_mem htne)
      exact ⟨p, hp, hpt⟩
    · obtain ⟨p, hp, hpt⟩ := List.mem_map.1 (htemps ▸ maxList_mem htne)
      exact ⟨p, hp, hpt⟩
    · rw [heatData_none_char points hne]
      have hle : minList temps ≤ maxList temps :=
        le_trans (minList_le (htemps ▸ minList_mem htne))
          (le_maxList (htemps ▸ minList_mem htne))
      by_cases hc : maxList temps = minList temps
      · rw [← htemps, hc, sub_self]
        simp
      · have hlt : 0 < maxList temps - minList temps :=
          sub_pos.2 (lt_of_le_of_ne hle (Ne.symm hc))
        rw [← htemps]
        simp only [if_pos hlt, if_neg hc]
  · norm_num [heatData, minList, maxList]

/-- C7 witness: the theorem applied to the three-point example list. -/
theorem C7_heatmap_normalizer_witness :
    (∃ mn mx,
       (∀ p ∈ ([⟨0, 0, 10⟩, ⟨1, 1, 20⟩, ⟨2, 2, 30⟩] : List HeatmapPoint),
          mn ≤ p.temp ∧ p.temp ≤ mx) ∧
       (∃ p ∈ ([⟨0, 0, 10⟩, ⟨1, 1, 20⟩, ⟨2, 2, 30⟩] : List HeatmapPoint), p.temp = mn) ∧
       (∃ p ∈ ([⟨0, 0, 10⟩, ⟨1, 1, 20⟩, ⟨2, 2, 30⟩] : List HeatmapPoint), p.temp = mx) ∧
       heatData [⟨0, 0, 10⟩, ⟨1, 1, 20⟩, ⟨2, 2, 30⟩] none none =
         ([⟨0, 0, 10⟩, ⟨1, 1, 20⟩, ⟨2, 2, 30⟩] : List HeatmapPoint).map fun p =>
           (p.lat, p.lon, if mx = mn then 1 / 2 else (p.temp - mn) / (mx - mn))) ∧
    heatData [⟨0, 0, 10⟩, ⟨1, 1, 20⟩, ⟨2, 2, 30⟩] none none =
      [(0, 0, 0), (1, 1, 1 / 2), (2, 2, 1)] :=
  C7_heatmap_normalizer [⟨0, 0, 10⟩, ⟨1, 1, 20⟩, ⟨2, 2, 30⟩] (by simp)

/-- C9 (amended).  Every intensity lies in [0,1] when NO explicit override is
supplied; with an override whose range does not cover the temperatures the
invariant fails (see the counterexample). -/
theorem C9_intensity_range_amended (points : List HeatmapPoint) (hne : points ≠ []) :
    ∀ x ∈ heatData points none none, 0 ≤ x.2.2 ∧ x.2.2 ≤ 1 := by
  rw [heatData_none_char points hne]
  intro x hx
  obtain ⟨p, hp, rfl⟩ := List.mem_map.1 hx
  dsimp only
  by_cases hc : 0 < maxList (points.map HeatmapPoint.temp) -
      minList (points.map HeatmapPoint.temp)
  · rw [if_pos hc]
    have hmem : p.temp ∈ points.map HeatmapPoint.temp :=
      List.mem_map_of_mem HeatmapPoint.temp hp
    constructor
    · exact div_nonneg (sub_nonneg.2 (minList_le hmem)) (le_of_lt hc)
    · rw [div_le_one hc]
      have := le_maxList hmem
      linarith
  · rw [if_neg hc]
    norm_num

/-- C9 witness: the amended theorem applied to a concrete two-point list and
to the concrete output point `(0, 0, 0)` of that list. -/
theorem C9_intensity_range_witness :
    0 ≤ (((0 : ℚ), (0 : ℚ), (0 : ℚ)) : ℚ × ℚ × ℚ).2.2 ∧
    (((0 : ℚ), (0 : ℚ), (0 : ℚ)) : ℚ × ℚ × ℚ).2.2 ≤ 1 :=
  C9_intensity_range_amended [⟨0, 0, 10⟩, ⟨1, 1, 20⟩] (by simp) (0, 0, 0)
    (by norm_num [heatData, minList, maxList])

/-- C9 counterexample: with the explicit override `(min 0, max 10)` and a
sample temperature 20 outside that range, the produced intensity is 2,
violating the claimed invariant `intensity ∈ [0,1]`. -/
theorem C9_intensity_range_cex :
    heatData [⟨0, 0, 20⟩] (some 0) (some 10) = [(0, 0, 2)] ∧ ¬((2 : ℚ) ≤ 1) := by
  constructor
  · norm_num [heatData, minList, maxList]
  · norm_num
